import Mathlib

/-
Verification of the Bitcoin send core of the sol-incinerator repository:
coin selection, fee estimation, transaction building (src/multiSender.ts,
function sendBtc) and the RPC retry wrapper (src/solanaUtils.ts, function
safeRPCRequest), shallowly embedded as pure Lean functions.
-/

namespace SolIncinerator

/-- An unspent transaction output as fetched from the UTXO source:
`{txid, vout, value}` with `value` in integer satoshis. -/
structure Utxo where
  txid : String
  vout : Nat
  value : Nat
deriving Repr, DecidableEq

/-- The outcome of coin selection: chosen inputs (in order), their total
value in satoshis, and the estimated fee computed from the byte count. -/
structure SelectionResult where
  chosenInputs : List Utxo
  accumulatedValue : Nat
  estimatedFee : Nat
deriving Repr, DecidableEq

/-- The two failure modes of the selection phase of `sendBtc`:
the early throw on an empty UTXO list (multiSender.ts line 142,
message "Saldo 0 atau belum terkonfirmasi (No UTXOs).") and the
post-loop insufficiency throw (lines 186-192, whose message carries the
needed amount `target + fee` and the available amount `currentSats`). -/
inductive BtcError where
  | noUtxos
  | insufficientFunds (needed : Nat) (available : Nat)
deriving Repr, DecidableEq

/-- The selection loop of `sendBtc` (multiSender.ts lines 158-181): for each
UTXO in the supplied order, add it to the selection, accumulate
`currentSats += utxo.value` and `byteCount += 68`, and break as soon as
`currentSats >= amountSats`. Returns (chosen inputs, currentSats, byteCount),
threading the accumulators exactly as the code does. -/
def selectLoop (target : Nat) : List Utxo → Nat → Nat → List Utxo × Nat × Nat
  | [], currentSats, byteCount => ([], currentSats, byteCount)
  | u :: rest, currentSats, byteCount =>
    let currentSats2 := currentSats + u.value
    let byteCount2 := byteCount + 68
    if target ≤ currentSats2 then ([u], currentSats2, byteCount2)
    else
      let r := selectLoop target rest currentSats2 byteCount2
      (u :: r.1, r.2.1, r.2.2)

/-- The selection phase of `sendBtc` (multiSender.ts lines 142 and 153-192):
empty-list guard, the selection loop, the one-time two-output overhead
`byteCount += 31 * 2`, the fee `fee = byteCount * feeRate`, and the
insufficiency check `currentSats < amountSats + fee`. -/
def select (utxos : List Utxo) (targetSats : Nat) (feeRate : Nat) :
    Except BtcError SelectionResult :=
  if utxos = [] then Except.error BtcError.noUtxos
  else
    let r := selectLoop targetSats utxos 0 0
    let byteCount := r.2.2 + 31 * 2
    let fee := byteCount * feeRate
    if r.2.1 < targetSats + fee then
      Except.error (BtcError.insufficientFunds (targetSats + fee) r.2.1)
    else
      Except.ok ⟨r.1, r.2.1, fee⟩

/-- The unsigned transaction assembled by `sendBtc`: the chosen inputs and
the output list (address, value-in-satoshis). Output values are integers
because the code computes the change in BigInt arithmetic. -/
structure UnsignedTx where
  inputs : List Utxo
  outputs : List (String × Int)
deriving Repr, DecidableEq

/-- The output-construction phase of `sendBtc` (multiSender.ts lines
194-209): always one output paying `amountSats` to the destination, then
`change = currentSats - amountSats - fee` (BigInt), and a second output
paying `change` to the sender address only when `change > 546n`. -/
def build (sel : SelectionResult) (destination : String) (fundingAddress : String)
    (targetSats : Nat) : UnsignedTx :=
  let change : Int :=
    (sel.accumulatedValue : Int) - (targetSats : Int) - (sel.estimatedFee : Int)
  { inputs := sel.chosenInputs
    outputs :=
      (destination, (targetSats : Int)) ::
        (if 546 < change then [(fundingAddress, change)] else []) }

/-- Total value in satoshis of a list of UTXOs. -/
def sumValues (us : List Utxo) : Nat := us.foldr (fun u a => u.value + a) 0

/-- Total value of the outputs of an unsigned transaction. -/
def sumOutputValues (tx : UnsignedTx) : Int :=
  tx.outputs.foldr (fun o a => o.2 + a) 0

/-- Whether an `Except` result is a success. -/
def exceptIsOk {ε α : Type} : Except ε α → Bool
  | Except.ok _ => true
  | Except.error _ => false

/-- Whether a selection result is the shortfall-carrying InsufficientFunds
error (as opposed to success or the distinct no-UTXOs error). -/
def errIsInsufficient : Except BtcError SelectionResult → Bool
  | Except.error (BtcError.insufficientFunds _ _) => true
  | _ => false

/-- Follows the spec's words (§4.1): the greedy first-fit selection takes
UTXOs in the supplied order and stops as soon as the accumulated value
reaches the target; this is the selected sequence, written directly from
the spec's description for comparison with `select`. -/
def specGreedyTake (target : Nat) (acc : Nat) : List Utxo → List Utxo
  | [] => []
  | u :: rest =>
    u :: (if target ≤ acc + u.value then []
          else specGreedyTake target (acc + u.value) rest)

/-- Follows the spec's words (§4.1): the fee of a sequence of inputs,
`fee = (sum(inputVbytes) + 62) * feeRateSatPerVbyte` with 68 vbytes per
input. -/
def specFeeOfSequence (us : List Utxo) (feeRate : Nat) : Nat :=
  (68 * us.length + 62) * feeRate

/- Retry wrapper (src/solanaUtils.ts, safeRPCRequest, lines 23-46). The
operation is modelled as a function from the attempt number (0-based) to
that attempt's result; sleeps are recorded as a trace of durations. -/

/-- Outcome of the retry wrapper together with the trace of sleep
durations it performed: success with a value, immediate propagation of a
non-rate-limit error message, or exhaustion of all attempts. -/
inductive RetryOutcome (T : Type) where
  | ok (value : T) (sleeps : List Nat)
  | err (message : String) (sleeps : List Nat)
  | exhausted (sleeps : List Nat)
deriving Repr, DecidableEq

/-- Whether `pat` occurs at the start of `s` (over character lists). -/
def charsStartWith : List Char → List Char → Bool
  | [], _ => true
  | _ :: _, [] => false
  | p :: ps, c :: cs => p == c && charsStartWith ps cs

/-- Whether `pat` occurs somewhere inside `s` (over character lists). -/
def charsContain (pat : List Char) : List Char → Bool
  | [] => charsStartWith pat []
  | c :: cs => charsStartWith pat (c :: cs) || charsContain pat cs

/-- JS `string.includes`: whether `pat` occurs as a substring of `s`. -/
def strIncludes (s pat : String) : Bool := charsContain pat.data s.data

/-- The rate-limit test of safeRPCRequest (solanaUtils.ts line 34):
`msg.includes("429") || msg.includes("Too many requests")`. -/
def isRateLimitMsg (msg : String) : Bool :=
  strIncludes msg "429" || strIncludes msg "Too many requests"

/-- Prepend one sleep duration to the trace of a retry outcome. -/
def consSleep {T : Type} (d : Nat) : RetryOutcome T → RetryOutcome T
  | RetryOutcome.ok v s => RetryOutcome.ok v (d :: s)
  | RetryOutcome.err e s => RetryOutcome.err e (d :: s)
  | RetryOutcome.exhausted s => RetryOutcome.exhausted (d :: s)

/-- Prepend a list of sleep durations to the trace of a retry outcome. -/
def addSleeps {T : Type} (s : List Nat) (o : RetryOutcome T) : RetryOutcome T :=
  s.foldr consSleep o

/-- The loop of safeRPCRequest (solanaUtils.ts lines 28-45), with `i` the
current attempt index and `fuel` the remaining iterations: try the
operation; on success return its value; on a rate-limit error sleep
`delay * (i + 1)` and retry; on any other error rethrow it at once; when
the loop ends, throw the exhaustion error (line 45). -/
def retryGo {T : Type} (op : Nat → Except String T) (delay : Nat) (i : Nat) :
    Nat → RetryOutcome T
  | 0 => RetryOutcome.exhausted []
  | fuel + 1 =>
    match op i with
    | Except.ok v => RetryOutcome.ok v []
    | Except.error msg =>
      if isRateLimitMsg msg then
        consSleep (delay * (i + 1)) (retryGo op delay (i + 1) fuel)
      else RetryOutcome.err msg []

/-- safeRPCRequest (solanaUtils.ts lines 23-46): run the loop from attempt
0 with `retries` iterations of budget (defaults in the source: retries = 5,
delay = 2000 ms). -/
def safeRPCRequest {T : Type} (op : Nat → Except String T) (retries : Nat)
    (delay : Nat) : RetryOutcome T :=
  retryGo op delay 0 retries

/- Helper lemmas. -/

@[simp] theorem sumValues_nil : sumValues [] = 0 := rfl

@[simp] theorem sumValues_cons (u : Utxo) (l : List Utxo) :
    sumValues (u :: l) = u.value + sumValues l := rfl

theorem selectLoop_eq (target : Nat) (us : List Utxo) : ∀ (acc bc : Nat),
    selectLoop target us acc bc =
      (specGreedyTake target acc us,
       acc + sumValues (specGreedyTake target acc us),
       bc + 68 * (specGreedyTake target acc us).length) := by
  induction us with
  | nil => intro acc bc; simp [selectLoop, specGreedyTake]
  | cons u rest ih =>
    intro acc bc
    by_cases h : target ≤ acc + u.value
    · simp [selectLoop, specGreedyTake, h]
    · simp only [selectLoop, specGreedyTake, if_neg h, ih (acc + u.value) (bc + 68),
        sumValues_cons, List.length_cons]
      refine Prod.ext rfl (Prod.ext ?_ ?_) <;> simp <;> ring

theorem select_spec (utxos : List Utxo) (target feeRate : Nat) (h : utxos ≠ []) :
    select utxos target feeRate =
      (if sumValues (specGreedyTake target 0 utxos) <
            target + specFeeOfSequence (specGreedyTake target 0 utxos) feeRate
       then Except.error (BtcError.insufficientFunds
              (target + specFeeOfSequence (specGreedyTake target 0 utxos) feeRate)
              (sumValues (specGreedyTake target 0 utxos)))
       else Except.ok ⟨specGreedyTake target 0 utxos,
              sumValues (specGreedyTake target 0 utxos),
              specFeeOfSequence (specGreedyTake target 0 utxos) feeRate⟩) := by
  unfold select
  rw [if_neg h, selectLoop_eq]
  have hfee : 68 * (specGreedyTake target 0 utxos).length + 31 * 2 =
      68 * (specGreedyTake target 0 utxos).length + 62 := by norm_num
  simp only [Nat.zero_add, specFeeOfSequence, hfee]

theorem specGreedyTake_all (target : Nat) (us : List Utxo) : ∀ (acc : Nat),
    acc + sumValues us < target → specGreedyTake target acc us = us := by
  induction us with
  | nil => intro acc _; rfl
  | cons u rest ih =>
    intro acc h
    simp only [sumValues_cons] at h
    have h1 : ¬ target ≤ acc + u.value := by omega
    simp [specGreedyTake, h1, ih (acc + u.value) (by omega)]

theorem select_ok_facts {utxos : List Utxo} {target feeRate : Nat}
    {sel : SelectionResult} (h : select utxos target feeRate = Except.ok sel) :
    sel.accumulatedValue = sumValues sel.chosenInputs ∧
    target + sel.estimatedFee ≤ sel.accumulatedValue := by
  by_cases he : utxos = []
  · subst he; simp [select] at h
  · rw [select_spec utxos target feeRate he] at h
    by_cases hc : sumValues (specGreedyTake target 0 utxos) <
        target + specFeeOfSequence (specGreedyTake target 0 utxos) feeRate
    · rw [if_pos hc] at h; cases h
    · rw [if_neg hc] at h
      cases h
      refine ⟨rfl, ?_⟩
      dsimp only
      omega

@[simp] theorem addSleeps_ok {T : Type} (s : List Nat) (v : T) (s2 : List Nat) :
    addSleeps s (RetryOutcome.ok v s2) = RetryOutcome.ok v (s ++ s2) := by
  induction s with
  | nil => rfl
  | cons d rest ih => simp [addSleeps, List.foldr] at ih ⊢; simp [ih, consSleep]

@[simp] theorem addSleeps_err {T : Type} (s : List Nat) (m : String) (s2 : List Nat) :
    addSleeps s (RetryOutcome.err m s2) = (RetryOutcome.err m (s ++ s2) : RetryOutcome T) := by
  induction s with
  | nil => rfl
  | cons d rest ih => simp [addSleeps, List.foldr] at ih ⊢; simp [ih, consSleep]

@[simp] theorem addSleeps_exhausted {T : Type} (s : List Nat) (s2 : List Nat) :
    addSleeps s (RetryOutcome.exhausted s2) = (RetryOutcome.exhausted (s ++ s2) : RetryOutcome T) := by
  induction s with
  | nil => rfl
  | cons d rest ih => simp [addSleeps, List.foldr] at ih ⊢; simp [ih, consSleep]

theorem retryGo_skip {T : Type} (op : Nat → Except String T) (delay : Nat) :
    ∀ (k i fuel : Nat),
      (∀ j, j < k → ∃ m, op (i + j) = Except.error m ∧ isRateLimitMsg m = true) →
      k ≤ fuel →
      retryGo op delay i fuel =
        addSleeps ((List.range k).map (fun j => delay * (i + j + 1)))
          (retryGo op delay (i + k) (fuel - k)) := by
  intro k
  induction k with
  | zero => intro i fuel _ _; simp [addSleeps]
  | succ k ih =>
    intro i fuel h hk
    obtain ⟨fuel2, rfl⟩ : ∃ f, fuel = f + 1 := ⟨fuel - 1, by omega⟩
    obtain ⟨m, hm, hrl⟩ := h 0 (Nat.succ_pos k)
    have hm2 : op i = Except.error m := hm
    have ihx := ih (i + 1) fuel2
      (fun j hj => by
        obtain ⟨m2, hm3, hrl2⟩ := h (j + 1) (by omega)
        exact ⟨m2, by rw [show i + 1 + j = i + (j + 1) by omega]; exact hm3, hrl2⟩)
      (by omega)
    simp only [retryGo, hm2, hrl, if_true]
    rw [ihx, List.range_succ_eq_map, List.map_cons, List.map_map]
    have hfun : ((fun j => delay * (i + j + 1)) ∘ Nat.succ) =
        (fun j => delay * (i + 1 + j + 1)) := by
      funext j
      simp only [Function.comp, Nat.succ_eq_add_one]
      ring
    rw [hfun]
    have hidx : i + (k + 1) = i + 1 + k := by omega
    have hfuel : fuel2 + 1 - (k + 1) = fuel2 - k := by omega
    rw [hidx, hfuel]
    simp [addSleeps]

theorem retryGo_exhausted {T : Type} (op : Nat → Except String T) (delay : Nat) :
    ∀ (fuel i : Nat) (s : List Nat),
      retryGo op delay i fuel = RetryOutcome.exhausted s →
      ∀ j, j < fuel → ∃ m, op (i + j) = Except.error m ∧ isRateLimitMsg m = true := by
  intro fuel
  induction fuel with
  | zero => intro i s _ j hj; omega
  | succ fuel ih =>
    intro i s hres j hj
    rcases hop : op i with m | v
    · simp only [retryGo, hop] at hres
      by_cases hrl : isRateLimitMsg m = true
      · rw [if_pos hrl] at hres
        rcases j with _ | j2
        · exact ⟨m, by simpa using hop, hrl⟩
        · rcases hinner : retryGo op delay (i + 1) fuel with v2 | m2 | s2
          · rw [hinner] at hres; simp [consSleep] at hres
          · rw [hinner] at hres; simp [consSleep] at hres
          · obtain ⟨m3, hm3, hrl3⟩ := ih (i + 1) s2 hinner j2 (by omega)
            exact ⟨m3, by rw [show i + (j2 + 1) = i + 1 + j2 by omega]; exact hm3, hrl3⟩
      · rw [if_neg hrl] at hres
        cases hres
    · simp only [retryGo, hop] at hres
      cases hres

/- Claim theorems. -/

/-- C1: coin selection is greedy first-fit over the UTXOs in the supplied
order — each candidate is added, 68 vbytes and its value are accumulated,
and the loop stops as soon as the accumulated value reaches the target
(pre-fee check); only after the loop is the single two-output overhead of
62 vbytes added and the fee computed as (sum of input vbytes + 62) *
feeRate. Formally, `select` equals the computation described by the spec:
the chosen inputs are the greedy first-fit sequence, the fee is
(68 * count + 62) * feeRate over that sequence, and the post-loop
insufficiency check compares the accumulated value with target + fee. -/
theorem coin_selection_greedy_first_fit (utxos : List Utxo) (target feeRate : Nat)
    (h : utxos ≠ []) :
    select utxos target feeRate =
      (if sumValues (specGreedyTake target 0 utxos) <
            target + specFeeOfSequence (specGreedyTake target 0 utxos) feeRate
       then Except.error (BtcError.insufficientFunds
              (target + specFeeOfSequence (specGreedyTake target 0 utxos) feeRate)
              (sumValues (specGreedyTake target 0 utxos)))
       else Except.ok ⟨specGreedyTake target 0 utxos,
              sumValues (specGreedyTake target 0 utxos),
              specFeeOfSequence (specGreedyTake target 0 utxos) feeRate⟩) :=
  select_spec utxos target feeRate h

/-- Witness for C1 at the spec's §8 scenario: UTXOs [50000, 60000],
target 80000, feeRate 5. -/
theorem coin_selection_greedy_first_fit_witness :
    select [⟨"a", 0, 50000⟩, ⟨"b", 1, 60000⟩] 80000 5 =
      (if sumValues (specGreedyTake 80000 0 [⟨"a", 0, 50000⟩, ⟨"b", 1, 60000⟩]) <
            80000 + specFeeOfSequence
              (specGreedyTake 80000 0 [⟨"a", 0, 50000⟩, ⟨"b", 1, 60000⟩]) 5
       then Except.error (BtcError.insufficientFunds
              (80000 + specFeeOfSequence
                (specGreedyTake 80000 0 [⟨"a", 0, 50000⟩, ⟨"b", 1, 60000⟩]) 5)
              (sumValues (specGreedyTake 80000 0 [⟨"a", 0, 50000⟩, ⟨"b", 1, 60000⟩])))
       else Except.ok ⟨specGreedyTake 80000 0 [⟨"a", 0, 50000⟩, ⟨"b", 1, 60000⟩],
              sumValues (specGreedyTake 80000 0 [⟨"a", 0, 50000⟩, ⟨"b", 1, 60000⟩]),
              specFeeOfSequence
                (specGreedyTake 80000 0 [⟨"a", 0, 50000⟩, ⟨"b", 1, 60000⟩]) 5⟩) :=
  coin_selection_greedy_first_fit _ 80000 5 (List.cons_ne_nil _ _)

/-- C2 counterexample: the UTXO sequence [1000, 10000] with target 1000 and
feeRate 1 has total value 11000 ≥ target + fee(sequence) = 1198, yet
`select` fails: the loop stops after the first UTXO (1000 ≥ 1000), the fee
of that one-input selection is 130, and 1000 < 1130, so InsufficientFunds
is returned although the full sequence could easily cover target + fee. -/
theorem select_total_covering_fee_can_fail_cex :
    sumValues [⟨"a", 0, 1000⟩, ⟨"b", 1, 10000⟩] = 11000 ∧
    1000 + specFeeOfSequence [⟨"a", 0, 1000⟩, ⟨"b", 1, 10000⟩] 1 ≤ 11000 ∧
    select [⟨"a", 0, 1000⟩, ⟨"b", 1, 10000⟩] 1000 1 =
      Except.error (BtcError.insufficientFunds 1130 1000) ∧
    exceptIsOk (select [⟨"a", 0, 1000⟩, ⟨"b", 1, 10000⟩] 1000 1) = false := by
  refine ⟨rfl, by norm_num [specFeeOfSequence], rfl, rfl⟩

/-- C2 amended: success is guaranteed only when the greedily selected
sequence itself (the shortest value-covering first-fit segment, or the
whole list) covers target + its own fee; then `select` succeeds and the
result satisfies accumulatedValue ≥ target + estimatedFee. -/
theorem select_succeeds_when_greedy_covers_fee (utxos : List Utxo)
    (target feeRate : Nat) (h : utxos ≠ [])
    (hcov : target + specFeeOfSequence (specGreedyTake target 0 utxos) feeRate ≤
        sumValues (specGreedyTake target 0 utxos)) :
    ∃ sel, select utxos target feeRate = Except.ok sel ∧
      target + sel.estimatedFee ≤ sel.accumulatedValue := by
  rw [select_spec utxos target feeRate h, if_neg (by omega)]
  exact ⟨_, rfl, by dsimp only; omega⟩

/-- Witness for C2's amended theorem at UTXOs [50000, 60000], target 80000,
feeRate 5: both inputs are selected and 80990 ≤ 110000. -/
theorem select_succeeds_when_greedy_covers_fee_witness :
    ∃ sel, select [⟨"a", 0, 50000⟩, ⟨"b", 1, 60000⟩] 80000 5 = Except.ok sel ∧
      80000 + sel.estimatedFee ≤ sel.accumulatedValue :=
  select_succeeds_when_greedy_covers_fee _ 80000 5 (List.cons_ne_nil _ _)
    (by norm_num [specGreedyTake, specFeeOfSequence])

/-- C3 counterexample: one UTXO of 1200 satoshis, target 1000, feeRate 1.
Selection succeeds with accumulatedValue 1200 and estimatedFee 130; the
change 1200 - 1000 - 130 = 70 is ≤ 546 and folded into the fee, so the
built transaction has a single 1000-satoshi output and
sum(inputs) = 1200 ≠ 1130 = sum(outputs) + estimatedFee: the conservation
law with the estimated fee fails on dust-folded change. -/
theorem conservation_fails_on_dust_fold_cex :
    select [⟨"a", 0, 1200⟩] 1000 1 =
      Except.ok ⟨[⟨"a", 0, 1200⟩], 1200, 130⟩ ∧
    (build ⟨[⟨"a", 0, 1200⟩], 1200, 130⟩ "dest" "fund" 1000).outputs =
      [("dest", 1000)] ∧
    (sumValues (build ⟨[⟨"a", 0, 1200⟩], 1200, 130⟩ "dest" "fund" 1000).inputs : Int)
      = 1200 ∧
    sumOutputValues (build ⟨[⟨"a", 0, 1200⟩], 1200, 130⟩ "dest" "fund" 1000) + 130
      = 1130 ∧
    (1200 : Int) ≠ 1130 := by
  refine ⟨rfl, rfl, rfl, rfl, by norm_num⟩

/-- C3 amended: for every successfully built transaction,
sum(input values) == sum(output values) + estimatedFee + dust, where dust
is the change amount whenever it is ≤ 546 satoshis (folded into the fee,
no change output) and 0 otherwise — so the exact law
sum(inputs) == sum(outputs) + estimatedFee holds precisely when a change
output is emitted or the change is zero; and the transaction always has at
most two outputs. -/
theorem conservation_with_dust_folding (utxos : List Utxo) (target feeRate : Nat)
    (destination fundingAddress : String) (sel : SelectionResult)
    (h : select utxos target feeRate = Except.ok sel) :
    ((sumValues (build sel destination fundingAddress target).inputs : Int) =
      sumOutputValues (build sel destination fundingAddress target) +
        (sel.estimatedFee : Int) +
        (if 546 < ((sel.accumulatedValue : Int) - target - sel.estimatedFee)
         then 0
         else (sel.accumulatedValue : Int) - target - sel.estimatedFee)) ∧
    (build sel destination fundingAddress target).outputs.length ≤ 2 := by
  obtain ⟨hacc, _⟩ := select_ok_facts h
  by_cases hch : (546 : Int) < (sel.accumulatedValue : Int) - target - sel.estimatedFee
  · simp only [build, if_pos hch, sumOutputValues, List.foldr, List.length_cons,
      List.length_nil, hacc.symm]
    exact ⟨by ring, by omega⟩
  · simp only [build, if_neg hch, sumOutputValues, List.foldr, List.length_cons,
      List.length_nil, hacc.symm]
    exact ⟨by ring, by omega⟩

/-- Witness for C3's amended theorem at one 1200-satoshi UTXO, target 1000,
feeRate 1 (the dust-folding case: change 70 is added to the fee). -/
theorem conservation_with_dust_folding_witness :
    ((sumValues (build ⟨[⟨"a", 0, 1200⟩], 1200, 130⟩ "dest" "fund" 1000).inputs : Int) =
      sumOutputValues (build ⟨[⟨"a", 0, 1200⟩], 1200, 130⟩ "dest" "fund" 1000) +
        (130 : Int) + (if (546 : Int) < 1200 - 1000 - 130 then 0
                       else (1200 : Int) - 1000 - 130)) ∧
    (build ⟨[⟨"a", 0, 1200⟩], 1200, 130⟩ "dest" "fund" 1000).outputs.length ≤ 2 := by
  have h := conservation_with_dust_folding [⟨"a", 0, 1200⟩] 1000 1 "dest" "fund"
    ⟨[⟨"a", 0, 1200⟩], 1200, 130⟩ rfl
  simpa using h

/-- C4: the dust law. For every successful selection, if the change
accumulatedValue - target - estimatedFee is ≤ 546 satoshis, the built
transaction has exactly one output, paying the target to the destination;
otherwise it has exactly two outputs, the second paying exactly the change
to the funding address. -/
theorem dust_law (utxos : List Utxo) (target feeRate : Nat)
    (destination fundingAddress : String) (sel : SelectionResult)
    (h : select utxos target feeRate = Except.ok sel) :
    (((sel.accumulatedValue : Int) - target - sel.estimatedFee) ≤ 546 →
      (build sel destination fundingAddress target).outputs =
        [(destination, (target : Int))]) ∧
    (546 < ((sel.accumulatedValue : Int) - target - sel.estimatedFee) →
      (build sel destination fundingAddress target).outputs =
        [(destination, (target : Int)),
         (fundingAddress, (sel.accumulatedValue : Int) - target - sel.estimatedFee)]) := by
  constructor
  · intro hle
    simp [build, show ¬ (546 : Int) < (sel.accumulatedValue : Int) - target - sel.estimatedFee by omega]
  · intro hgt
    simp [build, hgt]

/-- Witness for C4 at UTXOs [50000, 60000], target 80000, feeRate 5:
change 29010 > 546 gives two outputs, the second paying exactly 29010 to
the funding address. -/
theorem dust_law_witness :
    (build ⟨[⟨"a", 0, 50000⟩, ⟨"b", 1, 60000⟩], 110000, 990⟩ "dest" "fund" 80000).outputs =
      [("dest", (80000 : Int)), ("fund", (29010 : Int))] := by
  have h := (dust_law [⟨"a", 0, 50000⟩, ⟨"b", 1, 60000⟩] 80000 5 "dest" "fund"
    ⟨[⟨"a", 0, 50000⟩, ⟨"b", 1, 60000⟩], 110000, 990⟩ rfl).2 (by norm_num)
  simpa using h

/-- C5 counterexample: for the empty UTXO list the code fails with the
distinct early no-UTXOs error ("Saldo 0 atau belum terkonfirmasi"), not
with the shortfall-carrying InsufficientFunds error the claim names. -/
theorem empty_utxos_distinct_error_cex :
    select ([] : List Utxo) 1000 1 = Except.error BtcError.noUtxos ∧
    errIsInsufficient (select ([] : List Utxo) 1000 1) = false := ⟨rfl, rfl⟩

/-- C5 amended: every nonempty UTXO sequence whose total value is strictly
below the target makes `select` return InsufficientFunds (carrying
needed = target + fee of the whole sequence and the total value as
available), and the empty UTXO list fails immediately with the distinct
no-UTXOs error, before fee computation or selection. -/
theorem insufficient_total_yields_error (utxos : List Utxo) (target feeRate : Nat) :
    (utxos = [] → select utxos target feeRate = Except.error BtcError.noUtxos) ∧
    (utxos ≠ [] → sumValues utxos < target →
      select utxos target feeRate =
        Except.error (BtcError.insufficientFunds
          (target + specFeeOfSequence utxos feeRate) (sumValues utxos))) := by
  constructor
  · intro he
    subst he
    rfl
  · intro hne hlt
    have hall : specGreedyTake target 0 utxos = utxos :=
      specGreedyTake_all target utxos 0 (by omega)
    rw [select_spec utxos target feeRate hne, hall, if_pos (by omega)]

/-- Witness for C5's amended theorem: one 10-satoshi UTXO with target 1000
at feeRate 1 yields InsufficientFunds with needed 1130 and available 10. -/
theorem insufficient_total_yields_error_witness :
    select [⟨"a", 0, 10⟩] 1000 1 =
      Except.error (BtcError.insufficientFunds 1130 10) := by
  have h := (insufficient_total_yields_error [⟨"a", 0, 10⟩] 1000 1).2
    (List.cons_ne_nil _ _) (by norm_num [sumValues])
  simpa [specFeeOfSequence, sumValues] using h

/-- C6: for the single UTXO of value 100000, target 99900 and feeRate 1,
selection computes byte count 68 + 62 = 130 and fee 130, finds
100000 < 99900 + 130 = 100030, and returns InsufficientFunds whose
diagnostics (needed 100030, available 100000) exhibit the 30-satoshi
shortfall. -/
theorem scenario_shortfall_thirty :
    select [⟨"t0", 0, 100000⟩] 99900 1 =
      Except.error (BtcError.insufficientFunds 100030 100000) ∧
    100030 = 99900 + (68 + 62) * 1 ∧
    100030 - 100000 = 30 := by
  refine ⟨rfl, by norm_num, by norm_num⟩

/-- C9: building the unsigned transaction is deterministic in its inputs —
the same selection, destination, funding address and target always produce
the identical transaction (the construction is a pure function of them). -/
theorem build_deterministic (sel : SelectionResult)
    (destination fundingAddress : String) (target : Nat) :
    build sel destination fundingAddress target =
      build sel destination fundingAddress target := rfl

/-- C7: if the operation fails with a rate-limit error on each of the
first k attempts (k < maxAttempts) and succeeds on attempt k, the wrapper
returns the success value and sleeps exactly k times, the i-th sleep
(1-based) lasting baseDelay * i — a strictly increasing linear backoff
schedule whenever the base delay is positive. -/
theorem retry_rate_limited_then_success {T : Type} (op : Nat → Except String T)
    (k retries delay : Nat) (v : T)
    (hfail : ∀ i, i < k → ∃ m, op i = Except.error m ∧ isRateLimitMsg m = true)
    (hok : op k = Except.ok v) (hk : k < retries) :
    safeRPCRequest op retries delay =
      RetryOutcome.ok v ((List.range k).map (fun j => delay * (j + 1))) ∧
    ((List.range k).map (fun j => delay * (j + 1))).length = k ∧
    (0 < delay →
      ((List.range k).map (fun j => delay * (j + 1))).Pairwise (· < ·)) := by
  refine ⟨?_, by simp, ?_⟩
  · unfold safeRPCRequest
    rw [retryGo_skip op delay k 0 retries (by simpa using hfail) (by omega)]
    obtain ⟨rest, hrest⟩ : ∃ r, retries - k = r + 1 := ⟨retries - k - 1, by omega⟩
    rw [hrest]
    simp only [Nat.zero_add, retryGo, hok, addSleeps_ok, List.append_nil]
  · intro hd
    exact List.Pairwise.map _
      (fun a b hab => mul_lt_mul_of_pos_left (Nat.succ_lt_succ hab) hd)
      (List.pairwise_lt_range k)

/-- Witness for C7: an operation failing with "429" on attempts 0 and 1 and
succeeding with value 7 on attempt 2, with 5 retries and base delay 2000,
returns 7 after sleeping 2000 then 4000 milliseconds. -/
theorem retry_rate_limited_then_success_witness :
    safeRPCRequest (fun i => if i < 2 then Except.error "429" else Except.ok 7) 5 2000 =
      RetryOutcome.ok 7 ((List.range 2).map (fun j => 2000 * (j + 1))) ∧
    ((List.range 2).map (fun j => 2000 * (j + 1))).length = 2 ∧
    (0 < 2000 →
      ((List.range 2).map (fun j => 2000 * (j + 1))).Pairwise (· < ·)) :=
  retry_rate_limited_then_success _ 2 5 2000 7
    (fun i hi => ⟨"429", by simp [hi], by decide⟩) rfl (by omega)

/-- C8: the wrapper propagates a non-rate-limit error as soon as it occurs
(after any number of earlier rate-limited attempts, and with no sleep for
the propagated error), and it reaches the exhaustion failure only when
every one of the maxAttempts attempts failed with a rate-limit error. -/
theorem retry_non_rate_limit_propagates {T : Type} (op : Nat → Except String T)
    (retries delay : Nat) :
    (∀ j m, j < retries →
      (∀ i, i < j → ∃ m2, op i = Except.error m2 ∧ isRateLimitMsg m2 = true) →
      op j = Except.error m → isRateLimitMsg m = false →
      safeRPCRequest op retries delay =
        RetryOutcome.err m ((List.range j).map (fun t => delay * (t + 1)))) ∧
    (∀ s, safeRPCRequest op retries delay = RetryOutcome.exhausted s →
      ∀ i, i < retries → ∃ m, op i = Except.error m ∧ isRateLimitMsg m = true) := by
  constructor
  · intro j m hj hprev hm hnr
    unfold safeRPCRequest
    rw [retryGo_skip op delay j 0 retries (by simpa using hprev) (by omega)]
    obtain ⟨rest, hrest⟩ : ∃ r, retries - j = r + 1 := ⟨retries - j - 1, by omega⟩
    rw [hrest]
    simp only [Nat.zero_add, retryGo, hm, hnr, Bool.false_eq_true, if_false,
      addSleeps_err, List.append_nil]
  · intro s hres i hi
    have h := retryGo_exhausted op delay retries 0 s hres i hi
    simpa using h

/-- Witness for C8: an operation that always fails with the non-rate-limit
message "boom" makes the wrapper propagate "boom" at once, with no sleeps. -/
theorem retry_non_rate_limit_propagates_witness :
    safeRPCRequest (fun _ => (Except.error "boom" : Except String Nat)) 5 2000 =
      RetryOutcome.err "boom" ((List.range 0).map (fun t => 2000 * (t + 1))) :=
  (retry_non_rate_limit_propagates (fun _ => (Except.error "boom" : Except String Nat))
      5 2000).1 0 "boom" (by omega) (fun i hi => absurd hi (Nat.not_lt_zero i))
    rfl (by decide)

/-- C10: when every attempt fails with a rate-limit error, the wrapper
sleeps after the final failed attempt as well — it performs maxAttempts
sleeps, with durations baseDelay * 1 through baseDelay * maxAttempts,
before failing with the exhaustion error. -/
theorem retry_exhausted_sleeps_all {T : Type} (op : Nat → Except String T)
    (retries delay : Nat)
    (hfail : ∀ i, i < retries → ∃ m, op i = Except.error m ∧ isRateLimitMsg m = true) :
    safeRPCRequest op retries delay =
      RetryOutcome.exhausted ((List.range retries).map (fun j => delay * (j + 1))) := by
  unfold safeRPCRequest
  rw [retryGo_skip op delay retries 0 retries (by simpa using hfail) le_rfl]
  simp [retryGo]

/-- Witness for C10 at the source defaults retries = 5, delay = 2000 ms: an
operation always failing with "429" exhausts after sleeping 2000, 4000,
6000, 8000 and 10000 ms — 30000 ms of waiting in total. -/
theorem retry_exhausted_sleeps_all_witness :
    safeRPCRequest (fun _ => (Except.error "429" : Except String Nat)) 5 2000 =
      RetryOutcome.exhausted ((List.range 5).map (fun j => 2000 * (j + 1))) ∧
    (List.range 5).map (fun j => 2000 * (j + 1)) =
      [2000, 4000, 6000, 8000, 10000] ∧
    ((List.range 5).map (fun j => 2000 * (j + 1))).foldr (· + ·) 0 = 30000 :=
  ⟨retry_exhausted_sleeps_all _ 5 2000 (fun i _ => ⟨"429", rfl, by decide⟩),
   by decide, by decide⟩

end SolIncinerator
